import Mathlib

/-!
Verification of the external-links cache core of `src/main.ts`
(Obsidian external-links plugin).

The embedding below translates the cache/extraction logic of
`ExternalLinksPlugin` into Lean:

* the two fixed link regexes of `extractExternalLinks`
  (`/\[([^\]]*)\]\((https?:\/\/[^\s\\)]+)\)/g` and
  `/(https?:\/\/[^\s\\)]+)/g`) are implemented as explicit scanners
  over the character list of the content, with the JS `exec`/`lastIndex`
  loop modelled as a position-by-position scan;
* the user-supplied exclusion regexes go through the host's `RegExp`
  engine, which is outside this repository; it is abstracted as a
  `RegexEngine` (validity of a pattern source, and unanchored `test`),
  and every theorem is quantified over the engine.  A small concrete
  engine (`demoEngine`) handling anchored/unanchored literal patterns
  with backslash escapes instantiates the theorems on the spec's
  example patterns;
* the JS `Record<string, string[]>` cache is an association list with
  JS object semantics: assignment to a present key updates it in place,
  assignment to an absent key appends, `delete` removes;
* a thrown exception (malformed `RegExp`, rejected `cachedRead`)
  propagates out of `updateFileCache`/`fullRefresh`; since the JS code
  mutates `this.settings.linkCache` in place, an aborted operation
  still leaves the mutations made before the throw.  Operations
  therefore return the final cache together with an optional error.
-/

/-- JS `\s` (the whitespace class used by both URL regexes). -/
def isJsSpace (c : Char) : Bool :=
  c.val = 32 || c.val = 9 || c.val = 10 || c.val = 13 || c.val = 11 ||
  c.val = 12 || c.val = 0xa0 || c.val = 0x1680 ||
  (0x2000 ≤ c.val && c.val ≤ 0x200a) || c.val = 0x2028 || c.val = 0x2029 ||
  c.val = 0x202f || c.val = 0x205f || c.val = 0x3000 || c.val = 0xfeff

/-- The URL character class `[^\s\\)]` of both regexes in
`extractExternalLinks`. -/
def isUrlChar (c : Char) : Bool :=
  !isJsSpace c && c ≠ '\\' && c ≠ ')'

/-- Match a literal character sequence at the head of the input,
returning the remainder on success. -/
def takeLit : List Char → List Char → Option (List Char)
  | [], rest => some rest
  | _ :: _, [] => none
  | l :: ls, c :: cs => if c = l then takeLit ls cs else none

/-- Match `https?:\/\/` at the head of the input (greedy `s?`),
returning the matched scheme and the remainder. -/
def matchScheme (s : List Char) : Option (List Char × List Char) :=
  match takeLit "https://".data s with
  | some rest => some ("https://".data, rest)
  | none =>
    match takeLit "http://".data s with
    | some rest => some ("http://".data, rest)
    | none => none

/-- Match `(https?:\/\/[^\s\\)]+)` at a fixed position:
the scheme followed by a maximal nonempty run of URL characters.
Returns the matched URL and the remainder after it. -/
def plainMatchAt (s : List Char) : Option (List Char × List Char) :=
  match matchScheme s with
  | none => none
  | some (sch, rest) =>
    let run := rest.takeWhile isUrlChar
    if run = [] then none
    else some (sch ++ run, rest.drop run.length)

/-- Match `\[([^\]]*)\]\((https?:\/\/[^\s\\)]+)\)` at a fixed position.
`[^\]]*` is forced to the maximal run of non-`]` characters (no other
length can be followed by `]`), and the URL run to the maximal run of
URL characters (no shorter run is followed by `)`).  Returns the
captured URL (group 2) and the remainder after the full match. -/
def mdMatchAt (s : List Char) : Option (List Char × List Char) :=
  match s with
  | '[' :: r1 =>
    let lbl := r1.takeWhile (fun c => c ≠ ']')
    match r1.drop lbl.length with
    | ']' :: '(' :: r3 =>
      match matchScheme r3 with
      | some (sch, r4) =>
        let run := r4.takeWhile isUrlChar
        if run = [] then none
        else
          match r4.drop run.length with
          | ')' :: r5 => some (sch ++ run, r5)
          | _ => none
      | none => none
    | _ => none
  | _ => none

/-- The `while ((match = urlRegex.exec(content)) !== null)` loop:
repeatedly find the leftmost markdown-link match and continue after
it.  Fuelled scan; each step consumes at least one character, so fuel
`length + 1` is exact. -/
def scanMdF : Nat → List Char → List (List Char)
  | 0, _ => []
  | _ + 1, [] => []
  | fuel + 1, c :: tail =>
    match mdMatchAt (c :: tail) with
    | some (url, rest) => url :: scanMdF fuel rest
    | none => scanMdF fuel tail

/-- The `plainUrlRegex.exec` loop, same scanning discipline. -/
def scanPlainF : Nat → List Char → List (List Char)
  | 0, _ => []
  | _ + 1, [] => []
  | fuel + 1, c :: tail =>
    match plainMatchAt (c :: tail) with
    | some (url, rest) => url :: scanPlainF fuel rest
    | none => scanPlainF fuel tail

/-- URLs pushed by the markdown-link loop of `extractExternalLinks`
(pushed unconditionally, duplicates and all), in match order. -/
def mdUrls (content : String) : List String :=
  (scanMdF (content.data.length + 1) content.data).map (fun cs => String.mk cs)

/-- URLs matched by the plain-URL loop of `extractExternalLinks`,
in match order (the dedup check of that loop is applied separately). -/
def plainUrls (content : String) : List String :=
  (scanPlainF (content.data.length + 1) content.data).map (fun cs => String.mk cs)

/-- `if (!links.includes(u)) links.push(u)`. -/
def pushIfAbsent (links : List String) (u : String) : List String :=
  if u ∈ links then links else links ++ [u]

/-- `[...new Set(l)]`: first-occurrence deduplication, order preserved. -/
def jsSetList (l : List String) : List String :=
  l.foldl pushIfAbsent []

/-- The host's regex facility (JS `RegExp`), external to the repository:
`valid p` is whether `new RegExp(p)` succeeds, `test p s` is
`new RegExp(p).test(s)` (unanchored search). -/
structure RegexEngine where
  valid : String → Bool
  test : String → String → Bool

/-- The two exclusion settings of `ExternalLinksPluginSettings`
that the cache logic reads. -/
structure ExclusionConfig where
  excludePatterns : List String
  excludePathRegex : String
deriving DecidableEq, Repr

/-- `extractExternalLinks(content)` (src/main.ts lines 394-419): the
markdown loop pushes every captured URL; the plain loop pushes URLs not
already collected; then `excludePatterns.map(p => new RegExp(p))`
throws on the first malformed pattern (before any filtering), else the
collected list is filtered by `!patterns.some(p => p.test(link))` and
deduplicated via `[...new Set(...)]`. -/
def extractExternalLinks (E : RegexEngine) (excludePatterns : List String)
    (content : String) : Except Unit (List String) :=
  let links := (plainUrls content).foldl pushIfAbsent (mdUrls content)
  if excludePatterns.all E.valid then
    Except.ok (jsSetList (links.filter
      (fun link => !(excludePatterns.any (fun p => E.test p link)))))
  else
    Except.error ()

/-- `Record<string, string[]>` with its key iteration order. -/
abbrev Cache := List (String × List String)

/-- JS property read `cache[p]`. -/
def cacheGet : Cache → String → Option (List String)
  | [], _ => none
  | (k, v) :: rest, p => if k = p then some v else cacheGet rest p

/-- JS property write `cache[k] = v`: a present key keeps its position,
an absent key is appended. -/
def cacheSet (c : Cache) (k : String) (v : List String) : Cache :=
  if (cacheGet c k).isSome then
    c.map (fun e => if e.1 = k then (k, v) else e)
  else
    c ++ [(k, v)]

/-- JS `delete cache[k]`. -/
def cacheDel (c : Cache) (k : String) : Cache :=
  c.filter (fun e => e.1 ≠ k)

/-- The exceptions that can escape the cache operations: a thrown
`SyntaxError` from `new RegExp` on a malformed pattern, or a rejected
`cachedRead` promise. -/
inductive RunError
  | config
  | read
deriving DecidableEq, Repr

/-- Outcome of a cache operation: the cache it leaves behind (the JS
code mutates `this.settings.linkCache` in place, so mutations made
before a throw survive it) plus the escaped exception, if any. -/
structure RunOut where
  cache : Cache
  err : Option RunError
deriving DecidableEq, Repr

/-- The guard `excludePathRegex && excludePathRegex.test(file.path)`
appearing at src/main.ts lines 343 and 356 (with
`this.settings.excludePathRegex ? new RegExp(...) : null` evaluated
first: the empty string is falsy, so an empty pattern excludes
nothing). -/
def isExcluded (E : RegexEngine) (cfg : ExclusionConfig) (path : String) : Bool :=
  decide (cfg.excludePathRegex ≠ "") && E.test cfg.excludePathRegex path

/-- `updateFileCache(file)` (src/main.ts lines 351-374).  `path` is
`file.path`; `content?` is what `cachedRead(file)` yields (`none` for a
rejected read).  Order of effects in the source: compile the path
pattern (throw if malformed), test it (delete the entry and return if
it matches), read the content (throw on failure), extract (throws
inside `extractExternalLinks` if a URL pattern is malformed), then
upsert on a non-empty result and delete on an empty one. -/
def updateFileCache (E : RegexEngine) (cfg : ExclusionConfig) (path : String)
    (content? : Option String) (c : Cache) : RunOut :=
  if cfg.excludePathRegex ≠ "" && !E.valid cfg.excludePathRegex then
    ⟨c, some RunError.config⟩
  else if isExcluded E cfg path then
    ⟨cacheDel c path, none⟩
  else
    match content? with
    | none => ⟨c, some RunError.read⟩
    | some content =>
      match extractExternalLinks E cfg.excludePatterns content with
      | Except.error _ => ⟨c, some RunError.config⟩
      | Except.ok links =>
        if links ≠ [] then ⟨cacheSet c path links, none⟩
        else ⟨cacheDel c path, none⟩

/-- The `for (const file of files)` loop of `fullRefresh`: skip
path-excluded files, otherwise `await updateFileCache(file, false)`;
an exception thrown there propagates and aborts the loop. -/
def fullLoop (E : RegexEngine) (cfg : ExclusionConfig)
    (files : List (String × Option String)) (c : Cache) : RunOut :=
  match files with
  | [] => ⟨c, none⟩
  | (path, content?) :: rest =>
    if isExcluded E cfg path then fullLoop E cfg rest c
    else
      match updateFileCache E cfg path content? c with
      | ⟨c2, none⟩ => fullLoop E cfg rest c2
      | ⟨c2, some e⟩ => ⟨c2, some e⟩

/-- `fullRefresh()` (src/main.ts lines 335-349).  `files` is the store
enumeration `getMarkdownFiles()` with each file's readable content
(`none` = the read would fail).  Note the order in the source: the
cache is cleared (line 336) BEFORE the path pattern is compiled (line
339), so a malformed path pattern throws with the cache already
emptied. -/
def fullRefresh (E : RegexEngine) (cfg : ExclusionConfig)
    (files : List (String × Option String)) (cache : Cache) : RunOut :=
  if cfg.excludePathRegex ≠ "" && !E.valid cfg.excludePathRegex then
    ⟨[], some RunError.config⟩
  else
    fullLoop E cfg files []

/-- `removeFileFromCache(file)` for a `TFile` (src/main.ts lines
376-381): unconditional delete. -/
def removeFileFromCache (path : String) (c : Cache) : Cache :=
  cacheDel c path

/-- `renameFileInCache(file, oldPath)` for a `TFile` (src/main.ts
lines 383-392): if the old key is present (any array is truthy),
assign its value to the new key, then delete the old key; otherwise do
nothing.  `path` is `file.path`, the new path. -/
def renameFileInCache (path oldPath : String) (c : Cache) : Cache :=
  match cacheGet c oldPath with
  | some v => cacheDel (cacheSet c path v) oldPath
  | none => c

/-- Literal characters the concrete demonstration engine accepts
unescaped: characters on which JS regex literal semantics are
unambiguous.  Regex metacharacters are not in this set, so a pattern
like a lone `(` (an unterminated group, which `new RegExp` rejects) is
invalid for this engine as well. -/
def demoLit (c : Char) : Bool :=
  c.isAlphanum || c = ':' || c = '/' || c = '-' || c = '_' || c = '~' ||
  c = '!' || c = ',' || c = ' ' || c = '@' || c = '%' || c = '='

/-- Validity of a demonstration-engine pattern body: a sequence of
plain literal characters and backslash escapes (a trailing lone
backslash is malformed, as it is for `new RegExp`). -/
def demoValidAux : List Char → Bool
  | [] => true
  | '\\' :: [] => false
  | '\\' :: _ :: rest => demoValidAux rest
  | c :: rest => demoLit c && demoValidAux rest

/-- Split an optional leading `^` anchor from a pattern. -/
def demoAnchor : List Char → Bool × List Char
  | '^' :: rest => (true, rest)
  | l => (false, l)

/-- Remove backslash escapes, keeping the escaped characters. -/
def unescChars : List Char → List Char
  | [] => []
  | '\\' :: c :: rest => c :: unescChars rest
  | c :: rest => c :: unescChars rest

/-- Does `needle` occur as a contiguous subsequence of `hay`? -/
def hasSub : List Char → List Char → Bool
  | n, [] => (takeLit n ([] : List Char)).isSome
  | n, c :: tail => (takeLit n (c :: tail)).isSome || hasSub n tail

/-- A concrete `RegexEngine` for anchored/unanchored literal patterns
with backslash escapes — the fragment the spec's example patterns
(`^private/`, `^https://other\.org`) live in.  `test` is unanchored
substring search unless the pattern starts with `^`. -/
def demoEngine : RegexEngine where
  valid p := demoValidAux (demoAnchor p.data).2
  test p s :=
    let a := demoAnchor p.data
    let lit := unescChars a.2
    if a.1 then (takeLit lit s.data).isSome else hasSub lit s.data

/-- Index of the first occurrence of `needle` in `hay` (claim-side
notion of "first occurrence in the document text"). -/
def occIdx : List Char → List Char → Option Nat
  | n, [] => if (takeLit n ([] : List Char)).isSome then some 0 else none
  | n, c :: tail =>
    if (takeLit n (c :: tail)).isSome then some 0
    else (occIdx n tail).map (fun i => i + 1)

/-- First-occurrence index of a string in a document. -/
def firstOccIdx (needle hay : String) : Option Nat :=
  occIdx needle.data hay.data

lemma pushIfAbsent_of_mem (l : List String) (u : String) (h : u ∈ l) :
    pushIfAbsent l u = l := by
  simp [pushIfAbsent, h]

lemma mem_pushIfAbsent (l : List String) (u v : String) :
    v ∈ pushIfAbsent l u ↔ v ∈ l ∨ v = u := by
  by_cases h : u ∈ l
  · simp only [pushIfAbsent, if_pos h]
    constructor
    · exact Or.inl
    · rintro (hv | rfl)
      · exact hv
      · exact h
  · simp [pushIfAbsent, h]

lemma mem_foldl_push (l : List String) :
    ∀ acc v, v ∈ l.foldl pushIfAbsent acc ↔ v ∈ acc ∨ v ∈ l := by
  induction l with
  | nil => simp
  | cons u t ih =>
    intro acc v
    rw [List.foldl_cons, ih, mem_pushIfAbsent]
    simp only [List.mem_cons]
    tauto

lemma nodup_pushIfAbsent (l : List String) (u : String) (h : l.Nodup) :
    (pushIfAbsent l u).Nodup := by
  unfold pushIfAbsent
  split_ifs with hu
  · exact h
  · refine List.Nodup.append h (List.nodup_singleton u) ?_
    intro a ha hb
    rw [List.mem_singleton] at hb
    subst hb
    exact hu ha

lemma nodup_foldl_push (l : List String) :
    ∀ acc : List String, acc.Nodup → (l.foldl pushIfAbsent acc).Nodup := by
  induction l with
  | nil => intro acc h; simpa using h
  | cons u t ih =>
    intro acc h
    rw [List.foldl_cons]
    exact ih _ (nodup_pushIfAbsent acc u h)

lemma jsSetList_nodup (l : List String) : (jsSetList l).Nodup :=
  nodup_foldl_push l [] List.nodup_nil

lemma mem_jsSetList (l : List String) (v : String) :
    v ∈ jsSetList l ↔ v ∈ l := by
  simp [jsSetList, mem_foldl_push]

lemma filter_pushIfAbsent_pos (p : String → Bool) (acc : List String) (u : String)
    (hu : p u = true) :
    pushIfAbsent (acc.filter p) u = (pushIfAbsent acc u).filter p := by
  unfold pushIfAbsent
  by_cases h : u ∈ acc
  · have hf : u ∈ acc.filter p := List.mem_filter.mpr ⟨h, hu⟩
    simp [h, hf]
  · have hf : u ∉ acc.filter p := fun hc => h (List.mem_filter.mp hc).1
    simp [h, hf, List.filter_append, hu]

lemma filter_pushIfAbsent_neg (p : String → Bool) (acc : List String) (u : String)
    (hu : p u = false) :
    (pushIfAbsent acc u).filter p = acc.filter p := by
  unfold pushIfAbsent
  split_ifs with h
  · rfl
  · simp [List.filter_append, hu]

lemma foldl_push_filter (p : String → Bool) (l : List String) :
    ∀ acc, (l.filter p).foldl pushIfAbsent (acc.filter p)
      = (l.foldl pushIfAbsent acc).filter p := by
  induction l with
  | nil => intro acc; simp
  | cons u t ih =>
    intro acc
    by_cases hu : p u
    · rw [List.filter_cons_of_pos hu, List.foldl_cons, List.foldl_cons,
        filter_pushIfAbsent_pos p acc u hu, ih (pushIfAbsent acc u)]
    · have hu' : p u = false := by simpa using hu
      rw [List.filter_cons_of_neg (by simp [hu']), List.foldl_cons,
        ← ih (pushIfAbsent acc u), filter_pushIfAbsent_neg p acc u hu']

lemma jsSetList_filter (p : String → Bool) (l : List String) :
    jsSetList (l.filter p) = (jsSetList l).filter p := by
  have h := foldl_push_filter p l []
  simpa [jsSetList] using h

lemma jsSetList_append_cons_of_mem (xs ys : List String) (u : String) (h : u ∈ xs) :
    jsSetList (xs ++ u :: ys) = jsSetList (xs ++ ys) := by
  unfold jsSetList
  rw [List.foldl_append, List.foldl_append, List.foldl_cons]
  have hu : u ∈ xs.foldl pushIfAbsent [] := (mem_foldl_push xs [] u).mpr (Or.inr h)
  rw [pushIfAbsent_of_mem _ _ hu]

lemma jsSetList_foldl_push (pl : List String) :
    ∀ md, jsSetList (pl.foldl pushIfAbsent md) = jsSetList (md ++ pl) := by
  induction pl with
  | nil => intro md; simp
  | cons u t ih =>
    intro md
    rw [List.foldl_cons, ih (pushIfAbsent md u)]
    unfold pushIfAbsent
    split_ifs with h
    · exact (jsSetList_append_cons_of_mem md t u h).symm
    · rw [List.append_assoc, List.singleton_append]

lemma cacheGet_cons (a : String) (b : List String) (rest : Cache) (p : String) :
    cacheGet ((a, b) :: rest) p = if a = p then some b else cacheGet rest p := rfl

lemma setFun_eq (k : String) (v : List String) (a : String) (b : List String) :
    (if ((a, b) : String × List String).1 = k then (k, v) else (a, b))
      = if a = k then (k, v) else (a, b) := rfl

lemma cacheGet_map_set (k : String) (v : List String) :
    ∀ c : Cache, (cacheGet c k).isSome →
      cacheGet (c.map fun e => if e.1 = k then (k, v) else e) k = some v := by
  intro c
  induction c with
  | nil => intro h; simp [cacheGet] at h
  | cons e rest ih =>
    obtain ⟨a, b⟩ := e
    intro h
    rw [List.map_cons, setFun_eq]
    by_cases hak : a = k
    · rw [if_pos hak, cacheGet_cons, if_pos rfl]
    · rw [cacheGet_cons, if_neg hak] at h
      rw [if_neg hak, cacheGet_cons, if_neg hak]
      exact ih h

lemma cacheGet_append_single (k : String) (v : List String) :
    ∀ c : Cache, cacheGet c k = none →
      cacheGet (c ++ [(k, v)]) k = some v := by
  intro c
  induction c with
  | nil => simp [cacheGet]
  | cons e rest ih =>
    obtain ⟨a, b⟩ := e
    intro h
    by_cases hak : a = k
    · subst hak; simp [cacheGet] at h
    · simp only [cacheGet, if_neg hak] at h
      simp only [List.cons_append, cacheGet, if_neg hak]
      exact ih h

lemma cacheGet_set_self (c : Cache) (k : String) (v : List String) :
    cacheGet (cacheSet c k v) k = some v := by
  unfold cacheSet
  split_ifs with h
  · exact cacheGet_map_set k v c h
  · exact cacheGet_append_single k v c (Option.not_isSome_iff_eq_none.mp h)

lemma cacheGet_map_set_other (k : String) (v : List String) (q : String) (hq : q ≠ k) :
    ∀ c : Cache,
      cacheGet (c.map fun e => if e.1 = k then (k, v) else e) q = cacheGet c q := by
  intro c
  induction c with
  | nil => simp
  | cons e rest ih =>
    obtain ⟨a, b⟩ := e
    rw [List.map_cons, setFun_eq]
    by_cases hak : a = k
    · have hkq : k ≠ q := fun hc => hq hc.symm
      have haq : a ≠ q := hak ▸ hkq
      rw [if_pos hak, cacheGet_cons, if_neg hkq, cacheGet_cons, if_neg haq]
      exact ih
    · rw [if_neg hak, cacheGet_cons, cacheGet_cons]
      by_cases haq : a = q
      · rw [if_pos haq, if_pos haq]
      · rw [if_neg haq, if_neg haq]
        exact ih

lemma cacheGet_append_single_other (k : String) (v : List String) (q : String)
    (hq : q ≠ k) :
    ∀ c : Cache, cacheGet (c ++ [(k, v)]) q = cacheGet c q := by
  intro c
  induction c with
  | nil =>
    have hkq : k ≠ q := fun hc => hq hc.symm
    simp [cacheGet, hkq]
  | cons e rest ih =>
    obtain ⟨a, b⟩ := e
    simp only [List.cons_append, cacheGet]
    by_cases haq : a = q
    · simp [haq]
    · simp [haq, ih]

lemma cacheGet_set_other (c : Cache) (k : String) (v : List String) (q : String)
    (hq : q ≠ k) :
    cacheGet (cacheSet c k v) q = cacheGet c q := by
  unfold cacheSet
  split_ifs with h
  · exact cacheGet_map_set_other k v q hq c
  · exact cacheGet_append_single_other k v q hq c

lemma cacheGet_del_self (c : Cache) (k : String) :
    cacheGet (cacheDel c k) k = none := by
  induction c with
  | nil => simp [cacheDel, cacheGet]
  | cons e rest ih =>
    obtain ⟨a, b⟩ := e
    by_cases hak : a = k
    · subst hak
      simpa [cacheDel, List.filter_cons] using ih
    · simpa [cacheDel, List.filter_cons, hak, cacheGet] using ih

lemma cacheGet_del_other (c : Cache) (k q : String) (hq : q ≠ k) :
    cacheGet (cacheDel c k) q = cacheGet c q := by
  induction c with
  | nil => simp [cacheDel]
  | cons e rest ih =>
    obtain ⟨a, b⟩ := e
    by_cases hak : a = k
    · subst hak
      have hkq : a ≠ q := fun hc => hq hc.symm
      simpa [cacheDel, List.filter_cons, cacheGet, hkq] using ih
    · by_cases haq : a = q
      · subst haq
        simp [cacheDel, List.filter_cons, hak, cacheGet]
      · simpa [cacheDel, List.filter_cons, hak, cacheGet, haq] using ih

lemma cacheGet_mem (c : Cache) (k : String) (v : List String)
    (h : cacheGet c k = some v) : (k, v) ∈ c := by
  induction c with
  | nil => simp [cacheGet] at h
  | cons e rest ih =>
    obtain ⟨a, b⟩ := e
    by_cases hak : a = k
    · subst hak
      rw [cacheGet_cons, if_pos rfl] at h
      have hb : b = v := Option.some.inj h
      subst hb
      exact List.mem_cons_self _ _
    · rw [cacheGet_cons, if_neg hak] at h
      exact List.mem_cons_of_mem _ (ih h)

/-- The invariant of claim C9: every stored value is a non-empty list
of pairwise-distinct URL strings. -/
def CacheWF (c : Cache) : Prop :=
  ∀ e ∈ c, e.2 ≠ [] ∧ e.2.Nodup

lemma cacheDel_wf (c : Cache) (k : String) (h : CacheWF c) :
    CacheWF (cacheDel c k) :=
  fun e he => h e (List.mem_of_mem_filter he)

lemma cacheSet_wf (c : Cache) (k : String) (v : List String)
    (h : CacheWF c) (hv1 : v ≠ []) (hv2 : v.Nodup) :
    CacheWF (cacheSet c k v) := by
  unfold cacheSet
  split_ifs with hs
  · intro e he
    rw [List.mem_map] at he
    obtain ⟨a, ha, rfl⟩ := he
    by_cases hak : a.1 = k
    · simp only [if_pos hak]
      exact ⟨hv1, hv2⟩
    · simp only [if_neg hak]
      exact h a ha
  · intro e he
    rw [List.mem_append] at he
    rcases he with he | he
    · exact h e he
    · rw [List.mem_singleton] at he
      subst he
      exact ⟨hv1, hv2⟩

lemma extract_ok_eq (E : RegexEngine) (ps : List String) (content : String)
    (r : List String) (h : extractExternalLinks E ps content = Except.ok r) :
    r = jsSetList ((mdUrls content ++ plainUrls content).filter
      (fun link => !(ps.any (fun p => E.test p link)))) := by
  simp only [extractExternalLinks] at h
  by_cases hv : ps.all E.valid
  · rw [if_pos hv] at h
    have hr := Except.ok.inj h
    rw [← hr, jsSetList_filter, jsSetList_filter, jsSetList_foldl_push]
  · rw [if_neg hv] at h
    exact absurd h (by simp)

lemma extract_ok_nodup (E : RegexEngine) (ps : List String) (content : String)
    (r : List String) (h : extractExternalLinks E ps content = Except.ok r) :
    r.Nodup := by
  rw [extract_ok_eq E ps content r h]
  exact jsSetList_nodup _

lemma extract_ok_not_mem (E : RegexEngine) (ps : List String) (content : String)
    (r : List String) (u p : String) (h : extractExternalLinks E ps content = Except.ok r)
    (hp : p ∈ ps) (ht : E.test p u = true) : u ∉ r := by
  intro hu
  rw [extract_ok_eq E ps content r h, mem_jsSetList] at hu
  have hpred := (List.mem_filter.mp hu).2
  rw [Bool.not_eq_true'] at hpred
  rw [List.any_eq_false] at hpred
  exact absurd ht (by simpa using hpred p hp)

lemma extract_error_of_bad (E : RegexEngine) (ps : List String) (content : String)
    (p : String) (hp : p ∈ ps) (hv : E.valid p = false) :
    extractExternalLinks E ps content = Except.error () := by
  simp only [extractExternalLinks]
  rw [if_neg]
  intro hall
  have := List.all_eq_true.mp hall p hp
  simp [hv] at this

lemma extract_ok_of_valid (E : RegexEngine) (ps : List String) (content : String)
    (hv : ∀ p ∈ ps, E.valid p = true) :
    extractExternalLinks E ps content
      = Except.ok (jsSetList (((plainUrls content).foldl pushIfAbsent
          (mdUrls content)).filter
            (fun link => !(ps.any (fun p => E.test p link))))) := by
  simp only [extractExternalLinks]
  rw [if_pos (List.all_eq_true.mpr (fun p hp => hv p hp))]

lemma updateFileCache_get_other (E : RegexEngine) (cfg : ExclusionConfig)
    (path : String) (ct : Option String) (c : Cache) (q : String) (hq : q ≠ path) :
    cacheGet (updateFileCache E cfg path ct c).cache q = cacheGet c q := by
  unfold updateFileCache
  split_ifs with h1 h2
  · rfl
  · exact cacheGet_del_other c path q hq
  · cases ct with
    | none => rfl
    | some content =>
      cases hre : extractExternalLinks E cfg.excludePatterns content with
      | error e => simp only [hre]
      | ok links =>
        simp only [hre]
        split_ifs with h3
        · exact cacheGet_set_other c path links q hq
        · exact cacheGet_del_other c path q hq

lemma updateFileCache_wf (E : RegexEngine) (cfg : ExclusionConfig)
    (path : String) (ct : Option String) (c : Cache) (h : CacheWF c) :
    CacheWF (updateFileCache E cfg path ct c).cache := by
  unfold updateFileCache
  split_ifs with h1 h2
  · exact h
  · exact cacheDel_wf c path h
  · cases ct with
    | none => exact h
    | some content =>
      cases hre : extractExternalLinks E cfg.excludePatterns content with
      | error e => simp only [hre]; exact h
      | ok links =>
        simp only [hre]
        split_ifs with h3
        · exact cacheSet_wf c path links h h3
            (extract_ok_nodup E cfg.excludePatterns content links hre)
        · exact cacheDel_wf c path h

lemma fullLoop_nil (E : RegexEngine) (cfg : ExclusionConfig) (c : Cache) :
    fullLoop E cfg [] c = ⟨c, none⟩ := rfl

lemma fullLoop_cons (E : RegexEngine) (cfg : ExclusionConfig) (path : String)
    (ct : Option String) (rest : List (String × Option String)) (c : Cache) :
    fullLoop E cfg ((path, ct) :: rest) c =
      if isExcluded E cfg path then fullLoop E cfg rest c
      else
        match updateFileCache E cfg path ct c with
        | ⟨c2, none⟩ => fullLoop E cfg rest c2
        | ⟨c2, some e⟩ => ⟨c2, some e⟩ := by
  rfl

lemma fullLoop_wf (E : RegexEngine) (cfg : ExclusionConfig) :
    ∀ (files : List (String × Option String)) (c : Cache), CacheWF c →
      CacheWF (fullLoop E cfg files c).cache := by
  intro files
  induction files with
  | nil => intro c h; exact h
  | cons f rest ih =>
    obtain ⟨path, ct⟩ := f
    intro c h
    rw [fullLoop_cons]
    split_ifs with hex
    · exact ih c h
    · rcases hu : updateFileCache E cfg path ct c with ⟨c2, e?⟩
      have hc2 : CacheWF c2 := by
        have hwf := updateFileCache_wf E cfg path ct c h
        rw [hu] at hwf
        exact hwf
      cases e? with
      | none => exact ih c2 hc2
      | some e => exact hc2

lemma fullLoop_append (E : RegexEngine) (cfg : ExclusionConfig) :
    ∀ (a b : List (String × Option String)) (acc : Cache),
      (fullLoop E cfg a acc).err = none →
      fullLoop E cfg (a ++ b) acc = fullLoop E cfg b (fullLoop E cfg a acc).cache := by
  intro a
  induction a with
  | nil => intro b acc _; rfl
  | cons f rest ih =>
    obtain ⟨path, ct⟩ := f
    intro b acc h
    rw [fullLoop_cons] at h
    rw [List.cons_append, fullLoop_cons]
    by_cases hex : isExcluded E cfg path
    · rw [if_pos hex] at h ⊢
      rw [ih b acc h]
      congr 1
      rw [fullLoop_cons, if_pos hex]
    · rw [if_neg hex] at h ⊢
      rcases hu : updateFileCache E cfg path ct acc with ⟨c2, e?⟩
      rw [hu] at h
      cases e? with
      | none =>
        simp only
        rw [ih b c2 h]
        congr 1
        rw [fullLoop_cons, if_neg hex, hu]
      | some e => simp at h

lemma fullLoop_get_excluded (E : RegexEngine) (cfg : ExclusionConfig) (p : String)
    (hex : isExcluded E cfg p = true) :
    ∀ (files : List (String × Option String)) (acc : Cache),
      cacheGet acc p = none →
      cacheGet (fullLoop E cfg files acc).cache p = none := by
  intro files
  induction files with
  | nil => intro acc h; exact h
  | cons f rest ih =>
    obtain ⟨q, ct⟩ := f
    intro acc hacc
    rw [fullLoop_cons]
    split_ifs with hq
    · exact ih acc hacc
    · have hpq : p ≠ q := by
        intro hc
        rw [← hc] at hq
        exact hq hex
      rcases hu : updateFileCache E cfg q ct acc with ⟨c2, e?⟩
      have hc2 : cacheGet c2 p = none := by
        have hother := updateFileCache_get_other E cfg q ct acc p hpq
        rw [hu] at hother
        rw [← hacc]
        exact hother
      cases e? with
      | none => exact ih c2 hc2
      | some e => exact hc2

lemma updateFileCache_bad_url_nil (E : RegexEngine) (cfg : ExclusionConfig)
    (path : String) (ct : Option String)
    (hbad : ∃ p ∈ cfg.excludePatterns, E.valid p = false) :
    (updateFileCache E cfg path ct ([] : Cache)).cache = [] := by
  unfold updateFileCache
  split_ifs with h1 h2
  · rfl
  · rfl
  · cases ct with
    | none => rfl
    | some content =>
      obtain ⟨p, hp, hv⟩ := hbad
      simp only [extract_error_of_bad E cfg.excludePatterns content p hp hv]

lemma fullLoop_bad_url_nil (E : RegexEngine) (cfg : ExclusionConfig)
    (hbad : ∃ p ∈ cfg.excludePatterns, E.valid p = false) :
    ∀ files : List (String × Option String),
      (fullLoop E cfg files ([] : Cache)).cache = [] := by
  intro files
  induction files with
  | nil => rfl
  | cons f rest ih =>
    obtain ⟨q, ct⟩ := f
    rw [fullLoop_cons]
    split_ifs with hq
    · exact ih
    · rcases hu : updateFileCache E cfg q ct [] with ⟨c2, e?⟩
      have hc2 : c2 = [] := by
        have hn := updateFileCache_bad_url_nil E cfg q ct hbad
        rw [hu] at hn
        exact hn
      cases e? with
      | none => rw [hc2]; exact ih
      | some e => exact hc2

/-- C3, as stated, is false on the code: in
`"https://a.com see [x](https://b.com)"` the bare URL `https://a.com`
first occurs at index 0 and the markdown-linked URL `https://b.com` at
index 22, yet the extraction lists `https://b.com` first, because the
markdown-link loop runs over the whole text before the plain-URL
loop. -/
theorem claim_C3_counterexample :
    extractExternalLinks demoEngine [] "https://a.com see [x](https://b.com)"
      = Except.ok ["https://b.com", "https://a.com"]
    ∧ firstOccIdx "https://a.com" "https://a.com see [x](https://b.com)" = some 0
    ∧ firstOccIdx "https://b.com" "https://a.com see [x](https://b.com)" = some 22 := by
  refine ⟨by rfl, by rfl, by rfl⟩

/-- C3 amended: for every content string, `extract` returns a
duplicate-free list (exact string equality); the order is first
occurrence in the two-pass collection — URLs captured by the
markdown-link pass, in text order, followed by URLs first seen by the
bare-URL pass, in text order (formally: the result is the
first-occurrence deduplication of the filtered concatenation of the
markdown-pass matches and the plain-pass matches).  A bare URL whose
text position precedes a markdown-linked URL may therefore appear
after it. -/
theorem claim_C3_amended (E : RegexEngine) (excl : List String) (content : String)
    (r : List String) (h : extractExternalLinks E excl content = Except.ok r) :
    r.Nodup
    ∧ r = jsSetList ((mdUrls content ++ plainUrls content).filter
        (fun link => !(excl.any (fun p => E.test p link)))) :=
  ⟨extract_ok_nodup E excl content r h, extract_ok_eq E excl content r h⟩

/-- Witness for C3 amended, at the spec's worked example. -/
theorem claim_C3_witness :
    (["https://example.com/page", "https://other.org"] : List String).Nodup
    ∧ (["https://example.com/page", "https://other.org"] : List String)
      = jsSetList ((mdUrls "See [Site](https://example.com/page) and also https://example.com/page again, plus https://other.org"
          ++ plainUrls "See [Site](https://example.com/page) and also https://example.com/page again, plus https://other.org").filter
            (fun link => !(([] : List String).any (fun p => demoEngine.test p link)))) :=
  claim_C3_amended demoEngine []
    "See [Site](https://example.com/page) and also https://example.com/page again, plus https://other.org"
    ["https://example.com/page", "https://other.org"] (by rfl)

/-- C4: a URL matched by any configured exclusion pattern never appears
in the result of `extractExternalLinks`, whether it occurred as a
markdown link target or as bare text (the filter runs over all
collected URLs). -/
theorem claim_C4 (E : RegexEngine) (excl : List String) (content : String)
    (r : List String) (u p : String)
    (h : extractExternalLinks E excl content = Except.ok r)
    (hp : p ∈ excl) (ht : E.test p u = true) : u ∉ r :=
  extract_ok_not_mem E excl content r u p h hp ht

/-- Witness for C4, at the spec's worked example with exclusion pattern
`^https://other\.org`. -/
theorem claim_C4_witness :
    extractExternalLinks demoEngine ["^https://other\\.org"]
      "See [Site](https://example.com/page) and also https://example.com/page again, plus https://other.org"
      = Except.ok ["https://example.com/page"]
    ∧ demoEngine.test "^https://other\\.org" "https://other.org" = true
    ∧ "https://other.org" ∉ (["https://example.com/page"] : List String) :=
  ⟨by rfl, by rfl,
    claim_C4 demoEngine ["^https://other\\.org"]
      "See [Site](https://example.com/page) and also https://example.com/page again, plus https://other.org"
      ["https://example.com/page"] "https://other.org" "^https://other\\.org"
      (by rfl) (by simp) (by rfl)⟩

/-- C6, as stated, is false on the code at `oldPath = newPath`: renaming
`"a.md"` onto itself with a cached entry deletes the entry (the source
assigns `cache[file.path] = cache[oldPath]` and then deletes `oldPath`,
which is the same key), so `cache[newPath]` does not equal the old
list. -/
theorem claim_C6_counterexample :
    cacheGet ([("a.md", ["https://x.com"])] : Cache) "a.md" = some ["https://x.com"]
    ∧ renameFileInCache "a.md" "a.md" [("a.md", ["https://x.com"])] = []
    ∧ cacheGet (renameFileInCache "a.md" "a.md" [("a.md", ["https://x.com"])]) "a.md"
        ≠ some ["https://x.com"] := by
  refine ⟨by rfl, by rfl, by decide⟩

/-- C6 amended: if an entry exists under `oldPath` and
`oldPath ≠ newPath`, `renameFileInCache` moves the list unchanged to
`newPath` and removes `oldPath`; if `oldPath = newPath` and an entry
exists, the entry is deleted; if no entry exists under `oldPath`, the
cache is left entirely unchanged. -/
theorem claim_C6_amended (c : Cache) (oldPath newPath : String) :
    (∀ v, cacheGet c oldPath = some v → oldPath ≠ newPath →
      cacheGet (renameFileInCache newPath oldPath c) newPath = some v
      ∧ cacheGet (renameFileInCache newPath oldPath c) oldPath = none)
    ∧ (∀ v, cacheGet c oldPath = some v → oldPath = newPath →
      cacheGet (renameFileInCache newPath oldPath c) newPath = none)
    ∧ (cacheGet c oldPath = none → renameFileInCache newPath oldPath c = c) := by
  refine ⟨?_, ?_, ?_⟩
  · intro v h hne
    simp only [renameFileInCache, h]
    constructor
    · rw [cacheGet_del_other _ oldPath newPath (fun hc => hne hc.symm)]
      exact cacheGet_set_self c newPath v
    · exact cacheGet_del_self _ oldPath
  · intro v h heq
    simp only [renameFileInCache, h]
    rw [← heq]
    exact cacheGet_del_self _ oldPath
  · intro h
    simp only [renameFileInCache, h]

/-- Witness for C6 amended: a move between distinct keys, and the no-op
when the old key is absent. -/
theorem claim_C6_witness :
    cacheGet ([("a.md", ["https://x.com"])] : Cache) "a.md" = some ["https://x.com"]
    ∧ cacheGet (renameFileInCache "b.md" "a.md" [("a.md", ["https://x.com"])]) "b.md"
        = some ["https://x.com"]
    ∧ cacheGet (renameFileInCache "b.md" "a.md" [("a.md", ["https://x.com"])]) "a.md"
        = none
    ∧ renameFileInCache "d.md" "c.md" [("a.md", ["https://x.com"])]
        = [("a.md", ["https://x.com"])] := by
  have h1 := (claim_C6_amended [("a.md", ["https://x.com"])] "a.md" "b.md").1
    ["https://x.com"] (by rfl) (by decide)
  have h2 := (claim_C6_amended [("a.md", ["https://x.com"])] "c.md" "d.md").2.2 (by rfl)
  exact ⟨by rfl, h1.1, h1.2, h2⟩

/-- C7: given a fixed store enumeration and a valid exclusion
configuration, `fullRefresh` is idempotent and its result is
independent of the cache state it starts from (the source assigns
`this.settings.linkCache = {}` first, so the prior cache is never
read). -/
theorem claim_C7 (E : RegexEngine) (cfg : ExclusionConfig)
    (files : List (String × Option String)) (c c2 : Cache)
    (hpv : cfg.excludePathRegex ≠ "" → E.valid cfg.excludePathRegex = true)
    (hup : ∀ p ∈ cfg.excludePatterns, E.valid p = true) :
    (fullRefresh E cfg files (fullRefresh E cfg files c).cache).cache
        = (fullRefresh E cfg files c).cache
    ∧ (fullRefresh E cfg files c).cache = (fullRefresh E cfg files c2).cache :=
  ⟨rfl, rfl⟩

/-- Witness for C7 on a one-document store. -/
theorem claim_C7_witness :
    (fullRefresh demoEngine ⟨[], ""⟩ [("a.md", some "https://x.com")]
        (fullRefresh demoEngine ⟨[], ""⟩ [("a.md", some "https://x.com")]
          [("z.md", ["https://w.org"])]).cache).cache
      = (fullRefresh demoEngine ⟨[], ""⟩ [("a.md", some "https://x.com")]
          [("z.md", ["https://w.org"])]).cache
    ∧ (fullRefresh demoEngine ⟨[], ""⟩ [("a.md", some "https://x.com")]
        [("z.md", ["https://w.org"])]).cache
      = (fullRefresh demoEngine ⟨[], ""⟩ [("a.md", some "https://x.com")] []).cache :=
  claim_C7 demoEngine ⟨[], ""⟩ [("a.md", some "https://x.com")]
    [("z.md", ["https://w.org"])] [] (by simp) (by simp)

/-- C10 first conjunct, as literally stated, fails at
`oldPath = newPath`: both keys then carry an entry (the same one), but
after the rename the entry is deleted rather than overwritten with the
old list. -/
theorem claim_C10_counterexample :
    cacheGet ([("n.md", ["https://u.org"])] : Cache) "n.md" = some ["https://u.org"]
    ∧ cacheGet (renameFileInCache "n.md" "n.md" [("n.md", ["https://u.org"])]) "n.md"
        ≠ some ["https://u.org"] := by
  refine ⟨by rfl, by decide⟩

/-- C10 amended: for distinct `oldPath ≠ newPath`, if entries exist
under both keys, the entry at `newPath` is overwritten with `oldPath`'s
list (the previous `newPath` list is lost); if no entry exists under
`oldPath`, an existing entry under `newPath` is left unchanged.  When
`oldPath = newPath` and an entry exists, the entry is deleted. -/
theorem claim_C10_amended (c : Cache) (oldPath newPath : String) :
    (∀ v w, oldPath ≠ newPath →
      cacheGet c oldPath = some v → cacheGet c newPath = some w →
      cacheGet (renameFileInCache newPath oldPath c) newPath = some v)
    ∧ (cacheGet c oldPath = none →
      cacheGet (renameFileInCache newPath oldPath c) newPath = cacheGet c newPath)
    ∧ (∀ v, oldPath = newPath → cacheGet c oldPath = some v →
      cacheGet (renameFileInCache newPath oldPath c) newPath = none) := by
  refine ⟨?_, ?_, ?_⟩
  · intro v w hne h hw
    simp only [renameFileInCache, h]
    rw [cacheGet_del_other _ oldPath newPath (fun hc => hne hc.symm)]
    exact cacheGet_set_self c newPath v
  · intro h
    simp only [renameFileInCache, h]
  · intro v heq h
    simp only [renameFileInCache, h]
    rw [← heq]
    exact cacheGet_del_self _ oldPath

/-- Witness for C10 amended: overwrite of an existing target entry, and
the no-op on the target when the source key is absent. -/
theorem claim_C10_witness :
    cacheGet (renameFileInCache "q.md" "p.md"
        [("p.md", ["https://p.org"]), ("q.md", ["https://q.org"])]) "q.md"
      = some ["https://p.org"]
    ∧ cacheGet (renameFileInCache "q.md" "absent.md"
        [("q.md", ["https://q.org"])]) "q.md" = some ["https://q.org"] := by
  have h1 := (claim_C10_amended
    [("p.md", ["https://p.org"]), ("q.md", ["https://q.org"])] "p.md" "q.md").1
    ["https://p.org"] ["https://q.org"] (by decide) (by rfl) (by rfl)
  have h2 := (claim_C10_amended [("q.md", ["https://q.org"])] "absent.md" "q.md").2.1 (by rfl)
  exact ⟨h1, h2.trans (by rfl)⟩

/-- C5: after `updateFileCache` on a readable document with a valid
configuration, the cache entry for the path is exactly: absent if the
path is excluded or the extraction is empty, and otherwise the
extraction result — independent of the prior cache state for that
path. -/
theorem claim_C5 (E : RegexEngine) (cfg : ExclusionConfig) (path content : String)
    (c : Cache) (ls : List String)
    (hpv : cfg.excludePathRegex ≠ "" → E.valid cfg.excludePathRegex = true)
    (hex : extractExternalLinks E cfg.excludePatterns content = Except.ok ls) :
    cacheGet (updateFileCache E cfg path (some content) c).cache path
      = if isExcluded E cfg path = true ∨ ls = [] then none else some ls := by
  have h1 : (decide (cfg.excludePathRegex ≠ "") && !E.valid cfg.excludePathRegex) = false := by
    by_cases he : cfg.excludePathRegex = ""
    · simp [he]
    · simp [he, hpv he]
  unfold updateFileCache
  rw [if_neg (by rw [h1]; exact Bool.false_ne_true)]
  by_cases hexc : isExcluded E cfg path = true
  · rw [if_pos hexc, if_pos (Or.inl hexc)]
    exact cacheGet_del_self c path
  · rw [if_neg hexc]
    simp only [hex]
    by_cases hls : ls = []
    · rw [if_neg (by simp [hls] : ¬ls ≠ []), if_pos (Or.inr hls)]
      exact cacheGet_del_self c path
    · rw [if_pos hls, if_neg (fun hor => hor.elim hexc hls)]
      exact cacheGet_set_self c path ls

/-- Witness for C5: a fresh extraction replaces a stale entry. -/
theorem claim_C5_witness :
    extractExternalLinks demoEngine [] "https://x.com" = Except.ok ["https://x.com"]
    ∧ cacheGet (updateFileCache demoEngine ⟨[], ""⟩ "a.md" (some "https://x.com")
        [("a.md", ["https://old.org"])]).cache "a.md" = some ["https://x.com"] := by
  have h := claim_C5 demoEngine ⟨[], ""⟩ "a.md" "https://x.com"
    [("a.md", ["https://old.org"])] ["https://x.com"] (by simp) (by rfl)
  exact ⟨by rfl, h.trans (by rfl)⟩

/-- C8: an empty exclude-path pattern excludes no path; and when the
pattern is non-empty, valid, and matches a path, that path has no
cache entry after `fullRefresh` or after `updateFileCache` on it
(whatever its content would have extracted to). -/
theorem claim_C8 :
    (∀ (E : RegexEngine) (ps : List String) (path : String),
        isExcluded E ⟨ps, ""⟩ path = false)
    ∧ (∀ (E : RegexEngine) (cfg : ExclusionConfig)
        (files : List (String × Option String)) (c : Cache) (path : String),
        E.valid cfg.excludePathRegex = true →
        isExcluded E cfg path = true →
        cacheGet (fullRefresh E cfg files c).cache path = none
        ∧ ∀ ct : Option String,
            cacheGet (updateFileCache E cfg path ct c).cache path = none) := by
  constructor
  · intro E ps path
    simp [isExcluded]
  · intro E cfg files c path hv hex
    have h1 : (decide (cfg.excludePathRegex ≠ "") && !E.valid cfg.excludePathRegex) = false := by
      simp [hv]
    constructor
    · unfold fullRefresh
      rw [if_neg (by rw [h1]; exact Bool.false_ne_true)]
      exact fullLoop_get_excluded E cfg path hex files [] (by rfl)
    · intro ct
      unfold updateFileCache
      rw [if_neg (by rw [h1]; exact Bool.false_ne_true), if_pos hex]
      exact cacheGet_del_self c path

/-- Witness for C8 at the spec's example: pattern `^private/`, document
`private/notes.md` whose content holds a valid link. -/
theorem claim_C8_witness :
    demoEngine.valid "^private/" = true
    ∧ isExcluded demoEngine ⟨[], "^private/"⟩ "private/notes.md" = true
    ∧ cacheGet (fullRefresh demoEngine ⟨[], "^private/"⟩
        [("private/notes.md", some "[l](https://x.com)")]
        [("private/notes.md", ["https://x.com"])]).cache "private/notes.md" = none
    ∧ cacheGet (updateFileCache demoEngine ⟨[], "^private/"⟩ "private/notes.md"
        (some "[l](https://x.com)")
        [("private/notes.md", ["https://x.com"])]).cache "private/notes.md" = none := by
  have h := claim_C8.2 demoEngine ⟨[], "^private/"⟩
    [("private/notes.md", some "[l](https://x.com)")]
    [("private/notes.md", ["https://x.com"])] "private/notes.md" (by rfl) (by rfl)
  exact ⟨by rfl, by rfl, h.1, h.2 (some "[l](https://x.com)")⟩

/-- C9: each of the four cache operations preserves the invariant that
every stored cache value is a non-empty list of pairwise-distinct URL
strings. -/
theorem claim_C9 (E : RegexEngine) (cfg : ExclusionConfig) (path oldPath : String)
    (ct : Option String) (files : List (String × Option String)) (c : Cache)
    (h : CacheWF c) :
    CacheWF (fullRefresh E cfg files c).cache
    ∧ CacheWF (updateFileCache E cfg path ct c).cache
    ∧ CacheWF (removeFileFromCache path c)
    ∧ CacheWF (renameFileInCache path oldPath c) := by
  refine ⟨?_, updateFileCache_wf E cfg path ct c h, cacheDel_wf c path h, ?_⟩
  · unfold fullRefresh
    split_ifs
    · intro e he
      exact absurd he (List.not_mem_nil e)
    · exact fullLoop_wf E cfg files [] (fun e he => absurd he (List.not_mem_nil e))
  · cases hg : cacheGet c oldPath with
    | none =>
      simp only [renameFileInCache, hg]
      exact h
    | some v =>
      simp only [renameFileInCache, hg]
      have hv := h (oldPath, v) (cacheGet_mem c oldPath v hg)
      exact cacheDel_wf _ oldPath (cacheSet_wf c path v h hv.1 hv.2)

/-- Witness for C9 on a concrete well-formed cache. -/
theorem claim_C9_witness :
    CacheWF [("a.md", ["https://x.com"])]
    ∧ CacheWF (fullRefresh demoEngine ⟨[], ""⟩ [("b.md", some "https://b.org")]
        [("a.md", ["https://x.com"])]).cache
    ∧ CacheWF (updateFileCache demoEngine ⟨[], ""⟩ "b.md" (some "")
        [("a.md", ["https://x.com"])]).cache
    ∧ CacheWF (removeFileFromCache "b.md" [("a.md", ["https://x.com"])])
    ∧ CacheWF (renameFileInCache "b.md" "a.md" [("a.md", ["https://x.com"])]) := by
  have hw : CacheWF [("a.md", ["https://x.com"])] := by
    intro e he
    rw [List.mem_singleton] at he
    subst he
    exact ⟨by decide, by decide⟩
  have hc := claim_C9 demoEngine ⟨[], ""⟩ "b.md" "a.md" (some "")
    [("b.md", some "https://b.org")] [("a.md", ["https://x.com"])] hw
  exact ⟨hw, hc.1, hc.2.1, hc.2.2.1, hc.2.2.2⟩

/-- C1, as stated, is false on the code for `fullRefresh`: the source
clears `this.settings.linkCache` (line 336) before compiling the
exclude-path pattern (line 339), so a malformed pattern (here `"("`,
which `new RegExp` rejects as an unterminated group) aborts the rescan
with the cache already emptied, not with the prior cache state. -/
theorem claim_C1_counterexample :
    demoEngine.valid "(" = false
    ∧ fullRefresh demoEngine ⟨[], "("⟩ [("a.md", some "hello")]
        [("a.md", ["https://x.com"])]
        = ⟨[], some RunError.config⟩
    ∧ ([] : Cache) ≠ [("a.md", ["https://x.com"])] := by
  refine ⟨by rfl, by rfl, by decide⟩

/-- C1 amended: a malformed exclude-path pattern makes
`updateFileCache` abort with a configuration error leaving the cache
untouched, and makes `fullRefresh` abort with a configuration error
leaving the cache empty (the prior state was already cleared).  A
malformed exclude-URL pattern (path pattern empty or valid) makes
`updateFileCache` on a non-excluded readable path abort with a
configuration error leaving the cache untouched, and leaves
`fullRefresh` with an empty cache. -/
theorem claim_C1_amended :
    (∀ (E : RegexEngine) (cfg : ExclusionConfig) (path : String)
        (ct : Option String) (c : Cache),
        cfg.excludePathRegex ≠ "" → E.valid cfg.excludePathRegex = false →
        updateFileCache E cfg path ct c = ⟨c, some RunError.config⟩)
    ∧ (∀ (E : RegexEngine) (cfg : ExclusionConfig) (path content : String)
        (c : Cache),
        isExcluded E cfg path = false →
        (∃ p ∈ cfg.excludePatterns, E.valid p = false) →
        (cfg.excludePathRegex = "" ∨ E.valid cfg.excludePathRegex = true) →
        updateFileCache E cfg path (some content) c = ⟨c, some RunError.config⟩)
    ∧ (∀ (E : RegexEngine) (cfg : ExclusionConfig)
        (files : List (String × Option String)) (c : Cache),
        cfg.excludePathRegex ≠ "" → E.valid cfg.excludePathRegex = false →
        fullRefresh E cfg files c = ⟨[], some RunError.config⟩)
    ∧ (∀ (E : RegexEngine) (cfg : ExclusionConfig)
        (files : List (String × Option String)) (c : Cache),
        (∃ p ∈ cfg.excludePatterns, E.valid p = false) →
        (fullRefresh E cfg files c).cache = []) := by
  refine ⟨?_, ?_, ?_, ?_⟩
  · intro E cfg path ct c hne hv
    unfold updateFileCache
    rw [if_pos (by simp [hne, hv])]
  · intro E cfg path content c hexc hbad hvalid
    have h1 : (decide (cfg.excludePathRegex ≠ "") && !E.valid cfg.excludePathRegex) = false := by
      rcases hvalid with he | hv
      · simp [he]
      · simp [hv]
    unfold updateFileCache
    rw [if_neg (by rw [h1]; exact Bool.false_ne_true),
      if_neg (by rw [hexc]; exact Bool.false_ne_true)]
    obtain ⟨p, hp, hv⟩ := hbad
    simp only [extract_error_of_bad E cfg.excludePatterns content p hp hv]
  · intro E cfg files c hne hv
    unfold fullRefresh
    rw [if_pos (by simp [hne, hv])]
  · intro E cfg files c hbad
    unfold fullRefresh
    split_ifs
    · rfl
    · exact fullLoop_bad_url_nil E cfg hbad files

/-- Witness for C1 amended, with the genuinely malformed pattern `(`
in each of the four positions. -/
theorem claim_C1_witness :
    updateFileCache demoEngine ⟨[], "("⟩ "a.md" (some "x") [("b.md", ["https://u.org"])]
      = ⟨[("b.md", ["https://u.org"])], some RunError.config⟩
    ∧ updateFileCache demoEngine ⟨["("], ""⟩ "a.md" (some "https://x.com")
        [("b.md", ["https://u.org"])]
      = ⟨[("b.md", ["https://u.org"])], some RunError.config⟩
    ∧ fullRefresh demoEngine ⟨[], "("⟩ [("a.md", some "x")] [("b.md", ["https://u.org"])]
      = ⟨[], some RunError.config⟩
    ∧ (fullRefresh demoEngine ⟨["("], ""⟩ [("a.md", some "https://x.com")]
        [("b.md", ["https://u.org"])]).cache = [] :=
  ⟨claim_C1_amended.1 demoEngine ⟨[], "("⟩ "a.md" (some "x")
      [("b.md", ["https://u.org"])] (by decide) (by rfl),
    claim_C1_amended.2.1 demoEngine ⟨["("], ""⟩ "a.md" "https://x.com"
      [("b.md", ["https://u.org"])] (by rfl) ⟨"(", by simp, by rfl⟩ (Or.inl rfl),
    claim_C1_amended.2.2.1 demoEngine ⟨[], "("⟩ [("a.md", some "x")]
      [("b.md", ["https://u.org"])] (by decide) (by rfl),
    claim_C1_amended.2.2.2 demoEngine ⟨["("], ""⟩ [("a.md", some "https://x.com")]
      [("b.md", ["https://u.org"])] ⟨"(", by simp, by rfl⟩⟩

/-- C2, as stated, is false on the code: `updateFileCache` awaits
`cachedRead` with no try/catch and `fullRefresh` awaits
`updateFileCache` with no try/catch, so a rejected read propagates and
aborts the whole rescan.  Here the second document is readable and
extracts a link, yet ends up with no cache entry because the first
document's read failed. -/
theorem claim_C2_counterexample :
    fullRefresh demoEngine ⟨[], ""⟩ [("a.md", none), ("b.md", some "https://x.com")]
        [("old.md", ["https://y.org"])]
      = ⟨[], some RunError.read⟩
    ∧ extractExternalLinks demoEngine [] "https://x.com" = Except.ok ["https://x.com"]
    ∧ cacheGet ([] : Cache) "b.md" = none := by
  refine ⟨by rfl, by rfl, by rfl⟩

/-- C2 amended: during `fullRefresh` (valid path pattern), a content
read failure at a non-excluded document aborts the rescan exactly
there: the entries stored for the documents already processed remain,
the failing document and every later document are not processed, and
the read error escapes. -/
theorem claim_C2_amended (E : RegexEngine) (cfg : ExclusionConfig)
    (files1 files2 : List (String × Option String)) (p : String) (c : Cache)
    (hpv : cfg.excludePathRegex ≠ "" → E.valid cfg.excludePathRegex = true)
    (hp : isExcluded E cfg p = false)
    (h1 : (fullLoop E cfg files1 []).err = none) :
    fullRefresh E cfg (files1 ++ (p, none) :: files2) c
      = ⟨(fullLoop E cfg files1 []).cache, some RunError.read⟩ := by
  have hcond : (decide (cfg.excludePathRegex ≠ "") && !E.valid cfg.excludePathRegex) = false := by
    by_cases he : cfg.excludePathRegex = ""
    · simp [he]
    · simp [he, hpv he]
  unfold fullRefresh
  rw [if_neg (by rw [hcond]; exact Bool.false_ne_true)]
  rw [fullLoop_append E cfg files1 ((p, none) :: files2) [] h1]
  rw [fullLoop_cons]
  rw [if_neg (by rw [hp]; exact Bool.false_ne_true)]
  have hup : updateFileCache E cfg p none (fullLoop E cfg files1 []).cache
      = ⟨(fullLoop E cfg files1 []).cache, some RunError.read⟩ := by
    unfold updateFileCache
    rw [if_neg (by rw [hcond]; exact Bool.false_ne_true),
      if_neg (by rw [hp]; exact Bool.false_ne_true)]
  rw [hup]

/-- Witness for C2 amended: the document before the failing one keeps
its entry, the ones at and after it contribute nothing. -/
theorem claim_C2_witness :
    fullRefresh demoEngine ⟨[], ""⟩
        ([("ok.md", some "https://k.org")] ++ ("bad.md", none) :: [("c.md", some "https://c.org")])
        [("z.md", ["https://w.org"])]
      = ⟨[("ok.md", ["https://k.org"])], some RunError.read⟩ := by
  have h := claim_C2_amended demoEngine ⟨[], ""⟩ [("ok.md", some "https://k.org")]
    [("c.md", some "https://c.org")] "bad.md" [("z.md", ["https://w.org"])]
    (by simp) (by rfl) (by rfl)
  exact h.trans (by rfl)
